import Mathlib

/-!
Verification of the DeepAudit diff/comparison engine
(`src-tauri/src/diff/engine.rs`, `src-tauri/src/diff/git_integration.rs`,
`src-tauri/src/diff/types.rs`) against its natural-language specification.

Strings are modelled as `List Char` (`Str`).  Rust's `str::lines`,
`str::trim`, `str::split_once` and the `similar` crate's inclusive line
tokenizer are translated as executable functions below.  External
collaborators (the `dissimilar`/`similar` diff crates, the git subprocess,
the filesystem, the regex engine) are modelled as oracle inputs whose
documented guarantees appear as hypotheses.
-/

set_option maxHeartbeats 1000000
set_option linter.unnecessarySeqFocus false

namespace DeepAudit

/-- Strings, modelled as lists of characters. -/
abbrev Str := List Char

/-- Split a string at every `'\n'`, keeping empty segments; the separators
are dropped.  `splitNl "" = [""]`, matching Rust `str::split('\n')`. -/
def splitNl : Str → List Str
  | [] => [[]]
  | c :: rest =>
    if c = '\n' then [] :: splitNl rest
    else
      match splitNl rest with
      | [] => [[c]]
      | h :: t => (c :: h) :: t

/-- Strip one trailing `'\r'`, as Rust `str::lines` does on each
newline-terminated segment. -/
def stripCr (l : Str) : Str :=
  if l.getLast? = some '\r' then l.dropLast else l

/-- Helper for `rustLines`: the last split segment keeps any `'\r'` and is
dropped when empty (the optional final line terminator). -/
def rustLinesAux : List Str → List Str
  | [] => []
  | [l] => if l = [] then [] else [l]
  | l :: ls => stripCr l :: rustLinesAux ls

/-- Rust `str::lines`: split at `'\n'` (a preceding `'\r'` is stripped),
without a trailing empty line for a final line terminator; `"" ↦ []`. -/
def rustLines (s : Str) : List Str :=
  rustLinesAux (splitNl s)

/-- Rust `str::trim`, with `Char.isWhitespace` standing in for Unicode
`char::is_whitespace`. -/
def trimStr (s : Str) : Str :=
  ((s.dropWhile Char.isWhitespace).reverse.dropWhile Char.isWhitespace).reverse

/-- Rust `str::trim_end_matches('\n')`: drop every trailing `'\n'`. -/
def trimEndNl (s : Str) : Str :=
  (s.reverse.dropWhile (· = '\n')).reverse

/-- The `similar` crate's line tokenizer (`TextDiff::diff_lines`): split a
text into lines, each keeping its terminating `'\n'`; `"" ↦ []`. -/
def splitIncl : Str → List Str
  | [] => []
  | c :: rest =>
    if c = '\n' then ['\n'] :: splitIncl rest
    else
      match splitIncl rest with
      | [] => [[c]]
      | h :: t => (c :: h) :: t

/-- Rust `Vec::join("\n")` on a vector of lines. -/
def joinLines : List Str → Str
  | [] => []
  | [l] => l
  | l :: ls => l ++ '\n' :: joinLines ls

/-- Rust `str::split_once(sep)`: split at the first occurrence of `sep`. -/
def splitOnce (sep : Char) : Str → Option (Str × Str)
  | [] => none
  | c :: rest =>
    if c = sep then some ([], rest)
    else
      match splitOnce sep rest with
      | none => none
      | some (a, b) => some (c :: a, b)

/-- Rust `str::parse::<i64>` on the digits part: all characters are ASCII
digits and there is at least one. -/
def parseDigits (s : Str) : Option Nat :=
  if s = [] then none
  else if s.all Char.isDigit then
    some (s.foldl (fun n c => 10 * n + (c.toNat - '0'.toNat)) 0)
  else none

/-- Rust `str::parse::<i64>`: optional sign followed by decimal digits,
nothing else.  (Overflow of `i64` is not modelled; no claim depends on it.) -/
def parseInt : Str → Option Int
  | [] => none
  | c :: rest =>
    if c = '-' then (parseDigits rest).map (fun n => -(n : Int))
    else if c = '+' then (parseDigits rest).map (fun n => (n : Int))
    else (parseDigits (c :: rest)).map (fun n => (n : Int))

/-- Decimal rendering of a natural number, for the `format!` strings. -/
def natDigits (n : Nat) : Str :=
  Nat.toDigits 10 n

/-! ## Data model (`types.rs`) -/

/-- `DiffType` from `types.rs`. -/
inductive DiffType where
  | Equal
  | Insert
  | Delete
  | Replace
deriving DecidableEq

/-- `DiffLine` from `types.rs`. -/
structure DiffLine where
  left_line_number : Option Nat
  right_line_number : Option Nat
  diff_type : DiffType
  content : Str
  is_placeholder : Bool
deriving DecidableEq

/-- `FileStatus` from `types.rs`. -/
inductive FileStatus where
  | Added
  | Deleted
  | Modified
  | Renamed (old_path : Str)
  | Unchanged
deriving DecidableEq

/-- `FileStats` from `types.rs` (`size: u64`, `line_count: u32` as `Nat`;
no claim exercises integer wraparound). -/
structure FileStats where
  size : Nat
  line_count : Nat
  modified_time : Option Int
deriving DecidableEq

/-- `FileDiff` from `types.rs`. -/
structure FileDiff where
  path : Str
  status : FileStatus
  lines : List DiffLine
  left_stats : FileStats
  right_stats : FileStats
deriving DecidableEq

/-- `ComparisonSummary` from `types.rs`. -/
structure ComparisonSummary where
  files_added : Nat
  files_deleted : Nat
  files_modified : Nat
  files_renamed : Nat
  lines_added : Nat
  lines_deleted : Nat
deriving DecidableEq

/-- The fields of `ComparisonConfig` that the compared code reads
(`view_mode`, `context_lines`, `enable_syntax_highlight`, `ignore_case`
are display-only and never consulted by the engine).  The `f32` threshold
is modelled as a rational. -/
structure ComparisonConfig where
  ignore_whitespace : Bool
  detect_renames : Bool
  rename_similarity_threshold : ℚ
deriving DecidableEq

/-! ## Line diff, filesystem variant (`engine.rs`, `compute_line_diff`)

`DiffEngine::compute_line_diff` joins each side with `"\n"` and hands the
two joined texts to the external crate `dissimilar`, a character-granularity
diff.  The crate's output is modelled as an oracle `List Chunk`; its
documented guarantee is `chunksValid`: concatenating the Equal and Delete
chunk texts reproduces the left text, Equal and Insert the right text. -/

/-- `dissimilar::Chunk`. -/
inductive Chunk where
  | equal (text : Str)
  | delete (text : Str)
  | insert (text : Str)
deriving DecidableEq

/-- Concatenation of the Equal/Delete chunk texts (the left text). -/
def chunkEqDelText : List Chunk → Str
  | [] => []
  | .equal t :: cs => t ++ chunkEqDelText cs
  | .delete t :: cs => t ++ chunkEqDelText cs
  | .insert _ :: cs => chunkEqDelText cs

/-- Concatenation of the Equal/Insert chunk texts (the right text). -/
def chunkEqInsText : List Chunk → Str
  | [] => []
  | .equal t :: cs => t ++ chunkEqInsText cs
  | .insert t :: cs => t ++ chunkEqInsText cs
  | .delete _ :: cs => chunkEqInsText cs

/-- The reconstruction guarantee of `dissimilar::diff a b`. -/
def chunksValid (cs : List Chunk) (a b : Str) : Prop :=
  chunkEqDelText cs = a ∧ chunkEqInsText cs = b

/-- The Equal rows emitted for the lines of one Equal chunk: both counters
advance and are recorded. -/
def equalRows : List Str → Nat → Nat → List DiffLine
  | [], _, _ => []
  | s :: ss, l, r =>
    ⟨some l, some r, .Equal, s, false⟩ :: equalRows ss (l + 1) (r + 1)

/-- The Delete rows emitted for the lines of one Delete chunk: only the
left counter advances and is recorded. -/
def deleteRows : List Str → Nat → List DiffLine
  | [], _ => []
  | s :: ss, l => ⟨some l, none, .Delete, s, false⟩ :: deleteRows ss (l + 1)

/-- The Insert rows emitted for the lines of one Insert chunk: only the
right counter advances and is recorded. -/
def insertRows : List Str → Nat → List DiffLine
  | [], _ => []
  | s :: ss, r => ⟨none, some r, .Insert, s, false⟩ :: insertRows ss (r + 1)

/-- The chunk-consuming loop of `compute_line_diff`, carrying the 1-based
left and right line counters. -/
def computeLineDiffAux : List Chunk → Nat → Nat → List DiffLine
  | [], _, _ => []
  | .equal t :: cs, l, r =>
    let ls := rustLines t
    equalRows ls l r ++ computeLineDiffAux cs (l + ls.length) (r + ls.length)
  | .delete t :: cs, l, r =>
    let ls := rustLines t
    deleteRows ls l ++ computeLineDiffAux cs (l + ls.length) r
  | .insert t :: cs, l, r =>
    let ls := rustLines t
    insertRows ls r ++ computeLineDiffAux cs l (r + ls.length)

/-- `DiffEngine::compute_line_diff`, as a function of the chunk list the
external differ returned for the two joined texts. -/
def computeLineDiff (cs : List Chunk) : List DiffLine :=
  computeLineDiffAux cs 1 1

/-! ## Line diff, repository variant (`git_integration.rs`,
`compute_git_line_diff`)

`GitIntegration::compute_git_line_diff` joins each side with `"\n"` and
runs the external crate `similar` (`TextDiff::diff_lines`, Myers) over
inclusive-newline line tokens.  Its `iter_all_changes` output is modelled
as an oracle `List Change`; the guarantee is `changesValid`: the Equal and
Delete change values are exactly the left text's tokens in order, the
Equal and Insert values exactly the right text's tokens. -/

/-- `similar::ChangeTag`. -/
inductive ChangeTag where
  | equal
  | delete
  | insert
deriving DecidableEq

/-- One element of `similar`'s `iter_all_changes`. -/
structure Change where
  tag : ChangeTag
  value : Str
deriving DecidableEq

/-- The values of the non-Insert changes (the left side's tokens). -/
def changeEqDelTokens (chs : List Change) : List Str :=
  (chs.filter fun c => c.tag ≠ ChangeTag.insert).map Change.value

/-- The values of the non-Delete changes (the right side's tokens). -/
def changeEqInsTokens (chs : List Change) : List Str :=
  (chs.filter fun c => c.tag ≠ ChangeTag.delete).map Change.value

/-- The guarantee of `similar`'s line diff on texts `a`, `b`. -/
def changesValid (chs : List Change) (a b : Str) : Prop :=
  changeEqDelTokens chs = splitIncl a ∧ changeEqInsTokens chs = splitIncl b

/-- The change-consuming loop of `compute_git_line_diff`: one `DiffLine`
per change, content stripped of trailing newlines, counters per tag. -/
def computeGitLineDiffAux : List Change → Nat → Nat → List DiffLine
  | [], _, _ => []
  | ⟨.equal, v⟩ :: chs, l, r =>
    ⟨some l, some r, .Equal, trimEndNl v, false⟩ :: computeGitLineDiffAux chs (l + 1) (r + 1)
  | ⟨.delete, v⟩ :: chs, l, r =>
    ⟨some l, none, .Delete, trimEndNl v, false⟩ :: computeGitLineDiffAux chs (l + 1) r
  | ⟨.insert, v⟩ :: chs, l, r =>
    ⟨none, some r, .Insert, trimEndNl v, false⟩ :: computeGitLineDiffAux chs l (r + 1)

/-- `GitIntegration::compute_git_line_diff`, as a function of the change
list the external differ returned for the two joined texts. -/
def computeGitLineDiff (chs : List Change) : List DiffLine :=
  computeGitLineDiffAux chs 1 1

/-- Count of rows whose `diff_type` is `Equal` or `Delete`. -/
def countEqDel (dls : List DiffLine) : Nat :=
  (dls.filter fun d => d.diff_type = DiffType.Equal ∨ d.diff_type = DiffType.Delete).length

/-- Count of rows whose `diff_type` is `Equal` or `Insert`. -/
def countEqIns (dls : List DiffLine) : Nat :=
  (dls.filter fun d => d.diff_type = DiffType.Equal ∨ d.diff_type = DiffType.Insert).length

/-- A well-formed line sequence as produced by `str::lines`: no line
contains a newline, and the sequence does not end with an empty line. -/
def LinesWF (la : List Str) : Prop :=
  (∀ l ∈ la, '\n' ∉ l) ∧ la.getLast? ≠ some ([] : Str)

/-! ## Similarity and rename detection (`engine.rs`) -/

/-- The binary-file marker `"[二进制文件]"` used in synthetic line contents. -/
def binMarker : Str := "[二进制文件]".data

/-- Whether a diff line's content starts with the binary-file marker. -/
def hasBinMarker (l : DiffLine) : Bool :=
  binMarker.isPrefixOf l.content

/-- The `HashSet` of distinct trimmed contents of the non-marker lines,
modelled as a `Finset`. -/
def trimmedContentSet (ls : List DiffLine) : Finset Str :=
  ((ls.filter fun l => !hasBinMarker l).map fun l => trimStr l.content).toFinset

/-- `DiffEngine::calculate_similarity` (`f32` arithmetic modelled in `ℚ`;
all values the claims touch — `0.0`, `1.0`, small ratios against the
`0.8` threshold — are exact in `f32`). -/
def calculateSimilarity (lines_a lines_b : List DiffLine) : ℚ :=
  if lines_a = [] ∨ lines_b = [] then 0
  else if lines_a.any hasBinMarker ∨ lines_b.any hasBinMarker then 0
  else
    let set_a := trimmedContentSet lines_a
    let set_b := trimmedContentSet lines_b
    let inter := (set_a ∩ set_b).card
    let uni := (set_a ∪ set_b).card
    if uni = 0 then 1 else mkRat inter uni

/-- The `added_files` collection of `detect_renames`: indexed entries whose
status is `Added` and whose `lines` is nonempty. -/
def addedEntries (diffs : List FileDiff) : List (Nat × FileDiff) :=
  diffs.enum.filter fun p =>
    decide (p.2.status = FileStatus.Added) && !p.2.lines.isEmpty

/-- The `deleted_files` collection of `detect_renames`. -/
def deletedEntries (diffs : List FileDiff) : List FileDiff :=
  diffs.filter fun d => decide (d.status = FileStatus.Deleted)

/-- The inner scan of `detect_renames` for one added entry: the first
deleted entry whose similarity reaches the threshold (the loop `break`s at
the first hit), yielding its path. -/
def firstRenameMatch (cfg : ComparisonConfig) (deleted : List FileDiff)
    (added : FileDiff) : Option Str :=
  (deleted.find? fun d =>
    decide (cfg.rename_similarity_threshold ≤ calculateSimilarity d.lines added.lines)).map
    FileDiff.path

/-- The `rename_mappings` list: `(added index, old path)` pairs. -/
def renameMappings (cfg : ComparisonConfig) (diffs : List FileDiff) :
    List (Nat × Str) :=
  (addedEntries diffs).filterMap fun p =>
    (firstRenameMatch cfg (deletedEntries diffs) p.2).map fun old => (p.1, old)

/-- Applying the recorded mappings: each mapped index's status becomes
`Renamed` with the recorded old path. -/
def applyRenames (mappings : List (Nat × Str)) (diffs : List FileDiff) :
    List FileDiff :=
  diffs.enum.map fun p =>
    match mappings.lookup p.1 with
    | some old => { p.2 with status := FileStatus.Renamed old }
    | none => p.2

/-- `DiffEngine::detect_renames`: record first-match mappings, mark the
added entries `Renamed`, then retain every entry except `Deleted` ones
whose path was recorded as an old path. -/
def detectRenames (cfg : ComparisonConfig) (diffs : List FileDiff) :
    List FileDiff :=
  let mappings := renameMappings cfg diffs
  let marked := applyRenames mappings diffs
  let pathsToRemove := mappings.map Prod.snd
  marked.filter fun d =>
    !(decide (d.status = FileStatus.Deleted) && pathsToRemove.contains d.path)

/-! ## Summary (`engine.rs`, `calculate_summary`) -/

/-- The per-file status increment of `calculate_summary`'s loop. -/
def statusStep (s : ComparisonSummary) (d : FileDiff) : ComparisonSummary :=
  match d.status with
  | .Added => { s with files_added := s.files_added + 1 }
  | .Deleted => { s with files_deleted := s.files_deleted + 1 }
  | .Modified => { s with files_modified := s.files_modified + 1 }
  | .Renamed _ => { s with files_renamed := s.files_renamed + 1 }
  | .Unchanged => s

/-- The per-line increment of `calculate_summary`'s inner loop: `Insert`
and `Delete` each count once; `Equal` and `Replace` hit the `_` arm. -/
def lineStep (s : ComparisonSummary) (l : DiffLine) : ComparisonSummary :=
  match l.diff_type with
  | .Insert => { s with lines_added := s.lines_added + 1 }
  | .Delete => { s with lines_deleted := s.lines_deleted + 1 }
  | _ => s

/-- The body of `calculate_summary`'s loop: one status increment per file,
one line-count increment per Insert/Delete line. -/
def summaryStep (s : ComparisonSummary) (d : FileDiff) : ComparisonSummary :=
  d.lines.foldl lineStep (statusStep s d)

/-- `DiffEngine::calculate_summary`: fold `summaryStep` over the file
diffs starting from the all-zero summary. -/
def calculateSummary (file_diffs : List FileDiff) : ComparisonSummary :=
  file_diffs.foldl summaryStep ⟨0, 0, 0, 0, 0, 0⟩

/-! ## File comparison (`engine.rs`, `compare_files` and helpers)

Filesystem effects are modelled by a per-file oracle `FileModel` recording
the outcomes of each operation the code performs on that file. -/

/-- The error cases the engine and backend distinguish. -/
inductive DiffErr where
  | tooLarge
  | metaFail
  | readFail
  | decodeFail
  | spawnFail
  | gitDiffFailed
  | badTimestamp
  | notGitRepo
deriving DecidableEq

instance {ε α : Type} [DecidableEq ε] [DecidableEq α] :
    DecidableEq (Except ε α) := fun a b =>
  match a, b with
  | .ok x, .ok y =>
    if h : x = y then isTrue (by rw [h])
    else isFalse (by intro hc; cases hc; exact h rfl)
  | .error x, .error y =>
    if h : x = y then isTrue (by rw [h])
    else isFalse (by intro hc; cases hc; exact h rfl)
  | .ok _, .error _ => isFalse (by intro hc; cases hc)
  | .error _, .ok _ => isFalse (by intro hc; cases hc)

/-- Oracle for one filesystem file: the outcomes of the classification,
metadata, read and decode operations the engine may perform on it. -/
structure FileModel where
  path : Str
  isBinary : Except DiffErr Bool
  metaOk : Bool
  size : Nat
  mtime : Option Int
  readToString : Option Str
  readBytesOk : Bool
  utf8Bytes : Option Str
  w1252 : Str
  gbk : Str
  hashRead : Option Nat

/-- `DiffEngine::read_text_file`: metadata, the 10 MiB ceiling, UTF-8 read,
then the byte-level fallback chain (raw UTF-8, Windows-1252, GBK). -/
def readTextFile (f : FileModel) : Except DiffErr Str :=
  if ¬ f.metaOk then .error .metaFail
  else if f.size > 10 * 1024 * 1024 then .error .tooLarge
  else
    match f.readToString with
    | some c => .ok c
    | none =>
      if ¬ f.readBytesOk then .error .readFail
      else
        match f.utf8Bytes with
        | some c => .ok c
        | none =>
          if f.w1252 ≠ [] then .ok f.w1252
          else if f.gbk ≠ [] then .ok f.gbk
          else .error .decodeFail

/-- A rendering of an error, standing in for `format!("{}", e)`. -/
def errMsg : DiffErr → Str
  | .tooLarge => "文件过大，跳过文本比较".data
  | .metaFail => "无法访问文件".data
  | .readFail => "无法读取文件".data
  | .decodeFail => "无法解码文件".data
  | .spawnFail => "Failed to execute git".data
  | .gitDiffFailed => "Git diff command failed".data
  | .badTimestamp => "Invalid timestamp format".data
  | .notGitRepo => "Not a git repository".data

/-- The synthetic content `format!("[二进制文件] 大小: {} 字节", n)`. -/
def binSizeContent (n : Nat) : Str :=
  "[二进制文件] 大小: ".data ++ natDigits n ++ " 字节".data

/-- The synthetic content `format!("[{}文件] {}", kind, n)` of the
mixed binary/text case. -/
def mixedContent (isBin : Bool) (n : Nat) : Str :=
  "[".data ++ (if isBin then "二进制".data else "文本".data) ++ "文件] ".data ++ natDigits n

/-- `DiffEngine::create_error_file_diff`: a single-`Equal`-line diagnostic
with `status = Modified`; stats fall back to the working directory's
metadata (`cwd`) when a file's own metadata is unavailable. -/
def createErrorFileDiff (fa fb : FileModel) (cwd : FileStats) (e : DiffErr) :
    FileDiff :=
  { path := fb.path
    status := .Modified
    lines := [⟨some 1, some 1, .Equal, "[文件读取错误] ".data ++ errMsg e, false⟩]
    left_stats :=
      if fa.metaOk then ⟨fa.size, 1, fa.mtime⟩ else ⟨cwd.size, 1, cwd.modified_time⟩
    right_stats :=
      if fb.metaOk then ⟨fb.size, 1, fb.mtime⟩ else ⟨cwd.size, 1, cwd.modified_time⟩ }

/-- The `FileDiff` built at the end of `compare_binary_files`: stats use
the two metadata sizes and a line count of 0 or 1 by line emptiness. -/
def mkBinDiff (fa fb : FileModel) (status : FileStatus)
    (lines : List DiffLine) : FileDiff :=
  { path := fb.path
    status := status
    lines := lines
    left_stats := ⟨fa.size, if lines.isEmpty then 0 else 1, fa.mtime⟩
    right_stats := ⟨fb.size, if lines.isEmpty then 0 else 1, fb.mtime⟩ }

/-- `DiffEngine::compare_binary_files`: hash comparison when both sides
are binary, synthetic marker lines otherwise. -/
def compareBinaryFiles (fa fb : FileModel) (ba bb : Bool) :
    Except DiffErr FileDiff :=
  if ¬ fa.metaOk then .error .metaFail
  else if ¬ fb.metaOk then .error .metaFail
  else if ba && bb then
    match fa.hashRead, fb.hashRead with
    | some ha, some hb =>
      if ha = hb then .ok (mkBinDiff fa fb .Unchanged [])
      else
        .ok (mkBinDiff fa fb .Modified
          [⟨some 1, some 1, .Delete, binSizeContent fa.size, false⟩,
           ⟨some 2, some 2, .Insert, binSizeContent fb.size, false⟩])
    | _, _ => .error .readFail
  else
    .ok (mkBinDiff fa fb .Modified
      [⟨some 1, some 1, .Delete, mixedContent ba fa.size, false⟩,
       ⟨some 2, some 2, .Insert, mixedContent bb fb.size, false⟩])

/-- `DiffEngine::compare_files`: classification, binary path, or text path
with read failures downgraded to the diagnostic `FileDiff`.  `chunks` is
the external differ's output for the two joined (and, with
`ignore_whitespace`, trimmed) line sequences. -/
def compareFiles (cfg : ComparisonConfig) (fa fb : FileModel)
    (chunks : List Chunk) (cwd : FileStats) : Except DiffErr FileDiff := do
  let ba ← fa.isBinary
  let bb ← fb.isBinary
  if ba || bb then compareBinaryFiles fa fb ba bb
  else
    match readTextFile fa with
    | .error e => .ok (createErrorFileDiff fa fb cwd e)
    | .ok ca =>
      match readTextFile fb with
      | .error e => .ok (createErrorFileDiff fa fb cwd e)
      | .ok cb =>
        let lines_a := (rustLines ca).map fun l =>
          if cfg.ignore_whitespace then trimStr l else l
        let lines_b := (rustLines cb).map fun l =>
          if cfg.ignore_whitespace then trimStr l else l
        let dl := computeLineDiff chunks
        if ¬ fa.metaOk then .error .metaFail
        else if ¬ fb.metaOk then .error .metaFail
        else
          .ok
            { path := fb.path
              status :=
                if dl.all fun l => decide (l.diff_type = DiffType.Equal) then
                  .Unchanged
                else .Modified
              lines := dl
              left_stats := ⟨fa.size, lines_a.length, fa.mtime⟩
              right_stats := ⟨fb.size, lines_b.length, fb.mtime⟩ }

/-! ## Repository backend (`git_integration.rs`)

Each git subprocess invocation is modelled as a `SubpOut` oracle:
`none` means the process could not be launched (Rust `Command::output`
returned `Err`), `some (ok, stdout)` records the exit success flag and the
captured stdout. -/

/-- Outcome of one subprocess invocation. -/
abbrev SubpOut := Option (Bool × Str)

/-- `GitComparisonParams` from `types.rs`. -/
structure GitComparisonParams where
  repository_path : Str
  left_ref : Str
  right_ref : Str
  file_paths : List Str

/-- The subprocess outcomes the backend may consume for one changed file,
plus the external `similar` differ's output for its joined contents. -/
structure GitFileOracles where
  showLeft : SubpOut
  showRight : SubpOut
  statusQuery : SubpOut
  logFollow : SubpOut
  timeLeft : SubpOut
  timeRight : SubpOut
  changes : List Change

/-- `GitIntegration::get_file_content_at_commit`: non-zero exit (file
absent at that ref) yields empty content, not an error. -/
def getFileContentAtCommit (o : SubpOut) : Except DiffErr Str :=
  match o with
  | none => .error .spawnFail
  | some (false, _) => .ok []
  | some (true, out) => .ok out

/-- `GitIntegration::get_renamed_from_path`: scan the follow-log output
for an `R`-status line naming a different path (the exit status is not
checked by the code). -/
def getRenamedFromPath (o : SubpOut) (newPath : Str) :
    Except DiffErr (Option Str) :=
  match o with
  | none => .error .spawnFail
  | some (_, out) =>
    .ok ((rustLines out).findSome? fun line =>
      match splitOnce '\t' line with
      | some (st, p) =>
        if st = "R".data ∧ p ≠ newPath then some p else none
      | none => none)

/-- The line scan of `get_file_status`: first matching status line wins;
an `R` line consults the follow-log and, when that yields no old path,
the scan continues. -/
def statusScan (lines : List Str) (logO : SubpOut) (filePath : Str) :
    Except DiffErr FileStatus :=
  match lines with
  | [] => .ok .Unchanged
  | line :: rest =>
    match splitOnce '\t' line with
    | none => statusScan rest logO filePath
    | some (st, p) =>
      if p = filePath then
        if st = "A".data then .ok .Added
        else if st = "D".data then .ok .Deleted
        else if st = "M".data then .ok .Modified
        else if st = "R".data then
          match getRenamedFromPath logO filePath with
          | .error e => .error e
          | .ok (some old) => .ok (.Renamed old)
          | .ok none => statusScan rest logO filePath
        else if st = "C".data then .ok .Added
        else statusScan rest logO filePath
      else statusScan rest logO filePath

/-- `GitIntegration::get_file_status`: non-zero exit yields `Unchanged`. -/
def getFileStatus (o : SubpOut) (logO : SubpOut) (filePath : Str) :
    Except DiffErr FileStatus :=
  match o with
  | none => .error .spawnFail
  | some (false, _) => .ok .Unchanged
  | some (true, out) => statusScan (rustLines out) logO filePath

/-- `GitIntegration::get_commit_time`: non-zero exit yields `0`; a
successful query whose trimmed stdout does not parse as an integer is an
error. -/
def getCommitTime (o : SubpOut) : Except DiffErr Int :=
  match o with
  | none => .error .spawnFail
  | some (false, _) => .ok 0
  | some (true, out) =>
    match parseInt (trimStr out) with
    | some t => .ok t
    | none => .error .badTimestamp

/-- `GitIntegration::get_git_file_stats`: sizes and line counts from the
per-ref contents, times from the per-ref commit-time queries. -/
def getGitFileStats (fo : GitFileOracles) :
    Except DiffErr (FileStats × FileStats) := do
  let lc ← getFileContentAtCommit fo.showLeft
  let rc ← getFileContentAtCommit fo.showRight
  let lt ← getCommitTime fo.timeLeft
  let rt ← getCommitTime fo.timeRight
  .ok (⟨lc.length, (rustLines lc).length, some lt⟩,
       ⟨rc.length, (rustLines rc).length, some rt⟩)

/-- `GitIntegration::compare_git_file`: contents at both refs, status,
line diff, stats. -/
def compareGitFile (fo : GitFileOracles) (filePath : Str)
    (_cfg : ComparisonConfig) : Except DiffErr FileDiff := do
  let _lc ← getFileContentAtCommit fo.showLeft
  let _rc ← getFileContentAtCommit fo.showRight
  let st ← getFileStatus fo.statusQuery fo.logFollow filePath
  let dl := computeGitLineDiff fo.changes
  let stats ← getGitFileStats fo
  .ok
    { path := filePath
      status := st
      lines := dl
      left_stats := stats.1
      right_stats := stats.2 }

/-- `GitIntegration::get_changed_files`: parse the name-status output,
normalizing `R`/`C` lines to the new path. -/
def getChangedFiles (o : SubpOut) : Except DiffErr (List Str) :=
  match o with
  | none => .error .spawnFail
  | some (false, _) => .error .gitDiffFailed
  | some (true, out) =>
    .ok ((rustLines out).filterMap fun line =>
      match splitOnce '\t' line with
      | none => none
      | some (st, fp) =>
        if st = "A".data ∨ st = "D".data ∨ st = "M".data then some fp
        else if st = "R".data ∨ st = "C".data then
          match splitOnce '\t' fp with
          | some (_, newP) => some newP
          | none => some fp
        else some fp)

/-- The repository-side world: repository validity, the changed-file-list
query, the per-file subprocess oracles, and the external regex engine used
by `matches_pattern` for `*`-patterns. -/
structure GitWorld where
  isRepo : Bool
  changedQuery : SubpOut
  perFile : Str → GitFileOracles
  patMatch : Str → Str → Bool

/-- `GitIntegration::matches_pattern`: `*`-patterns go to the regex engine,
other patterns are substring matches. -/
def matchesPattern (w : GitWorld) (file pat : Str) : Bool :=
  if pat.contains '*' then w.patMatch file pat else decide (pat <:+: file)

/-- `GitIntegration::compare`: validity check, changed-file list, optional
path filter, then a per-file map whose results are collected fail-fast
(`collect::<Result<Vec<_>>>`). -/
def GitIntegration.compare (w : GitWorld) (params : GitComparisonParams)
    (cfg : ComparisonConfig) : Except DiffErr (List FileDiff) :=
  if ¬ w.isRepo then .error .notGitRepo
  else do
    let changed ← getChangedFiles w.changedQuery
    let files :=
      if params.file_paths = [] then changed
      else
        changed.filter fun f =>
          params.file_paths.any fun pat =>
            decide (pat <:+: f) || matchesPattern w f pat
    files.mapM fun f => compareGitFile (w.perFile f) f cfg

/-! ## Spec-side definitions and formalized claim statements -/

/-- Modelled from the spec: the "sets of distinct trimmed line contents"
over which the rename-candidate similarity is defined (no binary-marker
filtering appears in this sentence of the spec). -/
def trimmedSetSpec (ls : List DiffLine) : Finset Str :=
  (ls.map fun l => trimStr l.content).toFinset

/-- Modelled from the spec: the Jaccard index, "intersection size divided
by union size; defined as 1.0 if both sets are empty". -/
def specSimilarity (A B : Finset Str) : ℚ :=
  if A = ∅ ∧ B = ∅ then 1
  else ((A ∩ B).card : ℚ) / ((A ∪ B).card : ℚ)

/-- Claim C1 as stated, for the filesystem variant: for every pair of line
sequences, any reconstruction-valid chunk list of the joined texts yields
Equal+Delete = left count and Equal+Insert = right count. -/
def C1ClaimFs : Prop :=
  ∀ (la lb : List Str) (cs : List Chunk),
    chunksValid cs (joinLines la) (joinLines lb) →
    countEqDel (computeLineDiff cs) = la.length ∧
    countEqIns (computeLineDiff cs) = lb.length

/-- Claim C1 as stated, for the repository variant. -/
def C1ClaimGit : Prop :=
  ∀ (la lb : List Str) (chs : List Change),
    changesValid chs (joinLines la) (joinLines lb) →
    countEqDel (computeGitLineDiff chs) = la.length ∧
    countEqIns (computeGitLineDiff chs) = lb.length

/-- Claim C1 as stated, over both line-diff implementations it cites. -/
def C1Claim : Prop := C1ClaimFs ∧ C1ClaimGit

/-- The repository-mode isolation property shared by claims C2 and C9:
once the repository-validity check and the changed-file-list query have
succeeded, `compare` never fails (per-file task errors would be isolated). -/
def PerFileFatalFree : Prop :=
  ∀ (w : GitWorld) (p : GitComparisonParams) (cfg : ComparisonConfig),
    w.isRepo = true → (∃ out, w.changedQuery = some (true, out)) →
    ∃ ds, GitIntegration.compare w p cfg = .ok ds

/-- Claim C2 as stated: a failure of a single per-file task never causes
the whole repository compare to fail. -/
def C2Claim : Prop := PerFileFatalFree

/-- Claim C3 as stated: an `Added`/`Deleted` pair whose sizes differ by
more than 20% of the larger size is never matched as a rename. -/
def C3Claim : Prop :=
  ∀ (cfg : ComparisonConfig) (diffs : List FileDiff) (A D : FileDiff),
    A ∈ diffs → D ∈ diffs →
    A.status = FileStatus.Added → D.status = FileStatus.Deleted →
    5 * (max A.right_stats.size D.left_stats.size
          - min A.right_stats.size D.left_stats.size)
      > max A.right_stats.size D.left_stats.size →
    ∀ d ∈ detectRenames cfg diffs, d.status ≠ FileStatus.Renamed D.path

/-- Claim C4 as stated, instantiated at `compare_files` (whose outputs,
the diagnostic `FileDiff` included, the claim covers): every produced
`FileDiff` has `status = Unchanged` iff all its lines are `Equal`. -/
def C4Claim : Prop :=
  ∀ (cfg : ComparisonConfig) (fa fb : FileModel) (cs : List Chunk)
    (cwd : FileStats) (d : FileDiff),
    compareFiles cfg fa fb cs cwd = .ok d →
    (d.status = FileStatus.Unchanged ↔ ∀ l ∈ d.lines, l.diff_type = DiffType.Equal)

/-- Claim C7 as stated: similarity always equals the spec's Jaccard index
of the two sets of distinct trimmed line contents. -/
def C7Claim : Prop :=
  ∀ (a b : List DiffLine),
    calculateSimilarity a b = specSimilarity (trimmedSetSpec a) (trimmedSetSpec b)

/-- Claim C9 as stated: a non-zero-exit content fetch yields empty content
and never an error, and only the repository-validity check and the
changed-file-list query are comparison-fatal. -/
def C9Claim : Prop :=
  (∀ out : Str, getFileContentAtCommit (some (false, out)) = .ok []) ∧
  PerFileFatalFree

/-- A per-file oracle set on which every subprocess at least launched. -/
def OracleLaunched (o : SubpOut) : Prop := o ≠ none

/-- A commit-time query whose successful output parses as an integer. -/
def TimeParses (o : SubpOut) : Prop :=
  ∀ out, o = some (true, out) → (parseInt (trimStr out)).isSome

/-- The per-file tasks that cannot produce an error: every subprocess
launches, and successful commit-time outputs parse. -/
def PerFileTaskOk (fo : GitFileOracles) : Prop :=
  OracleLaunched fo.showLeft ∧ OracleLaunched fo.showRight ∧
  OracleLaunched fo.statusQuery ∧ OracleLaunched fo.logFollow ∧
  OracleLaunched fo.timeLeft ∧ OracleLaunched fo.timeRight ∧
  TimeParses fo.timeLeft ∧ TimeParses fo.timeRight

/-! ## Concrete inputs used by counterexamples and witnesses -/

/-- The default configuration (`rename_similarity_threshold = 0.8`). -/
def cfgDefault : ComparisonConfig := ⟨false, true, mkRat 4 5⟩

/-- Empty repository-mode params (no path filter). -/
def paramsEmpty : GitComparisonParams :=
  ⟨"repo".data, "l".data, "r".data, []⟩

/-- Per-file oracles that all succeed. -/
def gfoGood : GitFileOracles :=
  ⟨some (true, "left\n".data), some (true, "right\n".data),
   some (true, "M\ta.txt".data), some (true, [] ), some (true, "100".data),
   some (true, "200".data), []⟩

/-- Per-file oracles whose commit-time query succeeds with unparsable
output — the task returns an error. -/
def gfoBadTime : GitFileOracles :=
  ⟨some (true, "left\n".data), some (true, "right\n".data),
   some (true, "M\tb.txt".data), some (true, [] ), some (true, "oops".data),
   some (true, "200".data), []⟩

/-- Per-file oracles whose content query failed to launch — the task
returns an error. -/
def gfoNoLaunch : GitFileOracles :=
  ⟨none, some (true, "right\n".data), some (true, "M\tb.txt".data),
   some (true, [] ), some (true, "100".data), some (true, "200".data), []⟩

/-- A repository world with two changed files where the second file's
commit-time output is unparsable. -/
def wBadTime : GitWorld :=
  ⟨true, some (true, "M\ta.txt\nM\tb.txt".data),
   fun f => if f = "b.txt".data then gfoBadTime else gfoGood,
   fun _ _ => false⟩

/-- A repository world with two changed files where the second file's
content subprocess fails to launch. -/
def wNoLaunch : GitWorld :=
  ⟨true, some (true, "M\ta.txt\nM\tb.txt".data),
   fun f => if f = "b.txt".data then gfoNoLaunch else gfoGood,
   fun _ _ => false⟩

/-- An `Added` entry of the given size whose sole line trims to `"a"`
(content `"   a   "`, 7 bytes on disk in the concrete instance). -/
def c3Added (sz : Nat) : FileDiff :=
  ⟨"new.txt".data, .Added, [⟨none, some 1, .Insert, "   a   ".data, false⟩],
   ⟨0, 0, none⟩, ⟨sz, 1, none⟩⟩

/-- A `Deleted` entry of the given size whose sole line is `"a"`. -/
def c3Deleted (sz : Nat) : FileDiff :=
  ⟨"old.txt".data, .Deleted, [⟨some 1, none, .Delete, "a".data, false⟩],
   ⟨sz, 1, none⟩, ⟨0, 0, none⟩⟩

/-- `c3Added` reclassified as a rename of `old.txt`. -/
def c3Renamed (sz : Nat) : FileDiff :=
  ⟨"new.txt".data, .Renamed "old.txt".data,
   [⟨none, some 1, .Insert, "   a   ".data, false⟩],
   ⟨0, 0, none⟩, ⟨sz, 1, none⟩⟩

/-- Zero file stats (used as the working-directory fallback). -/
def statsZero : FileStats := ⟨0, 0, none⟩

/-- A non-binary file whose byte read fails: `read_text_file` errors. -/
def fmUnreadable : FileModel :=
  ⟨"a.txt".data, .ok false, true, 1, none, none, false, none, [], [], none⟩

/-- A plain readable one-line text file. -/
def fmPlain : FileModel :=
  ⟨"b.txt".data, .ok false, true, 1, none, some "x".data, true,
   some "x".data, [], [], none⟩

/-- A binary file with hash 1. -/
def fmBinA : FileModel :=
  ⟨"a.bin".data, .ok true, true, 4, none, none, true, none, [], [], some 1⟩

/-- A binary file with hash 2. -/
def fmBinB : FileModel :=
  ⟨"b.bin".data, .ok true, true, 9, none, none, true, none, [], [], some 2⟩

/-- A non-binary file one byte over the 10 MiB ceiling. -/
def fmHuge : FileModel :=
  ⟨"big.txt".data, .ok false, true, 10 * 1024 * 1024 + 1, none,
   some "x".data, true, some "x".data, [], [], none⟩

/-- Added entry `n1` with line content `"x"`. -/
def w10A1 : FileDiff :=
  ⟨"n1".data, .Added, [⟨none, some 1, .Insert, "x".data, false⟩],
   ⟨0, 0, none⟩, ⟨1, 1, none⟩⟩

/-- Added entry `n2` with line content `"x"`. -/
def w10A2 : FileDiff :=
  ⟨"n2".data, .Added, [⟨none, some 1, .Insert, "x".data, false⟩],
   ⟨0, 0, none⟩, ⟨1, 1, none⟩⟩

/-- Deleted entry `old` with line content `"x"`. -/
def w10D : FileDiff :=
  ⟨"old".data, .Deleted, [⟨some 1, none, .Delete, "x".data, false⟩],
   ⟨1, 1, none⟩, ⟨0, 0, none⟩⟩

/-- An Added entry with an empty lines list. -/
def w10Empty : FileDiff :=
  ⟨"e".data, .Added, [], ⟨0, 0, none⟩, ⟨0, 0, none⟩⟩

/-- Number of `Insert` lines of one `FileDiff`. -/
def insCountOf (d : FileDiff) : Nat :=
  (d.lines.filter fun l => decide (l.diff_type = DiffType.Insert)).length

/-- Number of `Delete` lines of one `FileDiff`. -/
def delCountOf (d : FileDiff) : Nat :=
  (d.lines.filter fun l => decide (l.diff_type = DiffType.Delete)).length

/-- Number of non-`Equal` lines of one `FileDiff`. -/
def neqCountOf (d : FileDiff) : Nat :=
  (d.lines.filter fun l => decide (l.diff_type ≠ DiffType.Equal)).length

/-- Whether a status is a `Renamed` variant. -/
def isRenamedStatus : FileStatus → Bool
  | .Renamed _ => true
  | _ => false

/-! ## Theorems -/

theorem exceptOkBind {ε α β : Type} (a : α) (f : α → Except ε β) :
    (Except.ok a : Except ε α) >>= f = f a := rfl

theorem lineFoldl_files_added (ls : List DiffLine) (s : ComparisonSummary) :
    (ls.foldl lineStep s).files_added = s.files_added := by
  induction ls generalizing s with
  | nil => rfl
  | cons l rest ih =>
    rw [List.foldl_cons, ih]
    cases h : l.diff_type <;> simp [lineStep, h]

theorem lineFoldl_files_deleted (ls : List DiffLine) (s : ComparisonSummary) :
    (ls.foldl lineStep s).files_deleted = s.files_deleted := by
  induction ls generalizing s with
  | nil => rfl
  | cons l rest ih =>
    rw [List.foldl_cons, ih]
    cases h : l.diff_type <;> simp [lineStep, h]

theorem lineFoldl_files_modified (ls : List DiffLine) (s : ComparisonSummary) :
    (ls.foldl lineStep s).files_modified = s.files_modified := by
  induction ls generalizing s with
  | nil => rfl
  | cons l rest ih =>
    rw [List.foldl_cons, ih]
    cases h : l.diff_type <;> simp [lineStep, h]

theorem lineFoldl_files_renamed (ls : List DiffLine) (s : ComparisonSummary) :
    (ls.foldl lineStep s).files_renamed = s.files_renamed := by
  induction ls generalizing s with
  | nil => rfl
  | cons l rest ih =>
    rw [List.foldl_cons, ih]
    cases h : l.diff_type <;> simp [lineStep, h]

theorem lineFoldl_lines_added (ls : List DiffLine) (s : ComparisonSummary) :
    (ls.foldl lineStep s).lines_added =
      s.lines_added + (ls.filter fun l => decide (l.diff_type = DiffType.Insert)).length := by
  induction ls generalizing s with
  | nil => rfl
  | cons l rest ih =>
    rw [List.foldl_cons, ih]
    cases h : l.diff_type <;>
      simp [lineStep, h, List.filter_cons] <;> omega

theorem lineFoldl_lines_deleted (ls : List DiffLine) (s : ComparisonSummary) :
    (ls.foldl lineStep s).lines_deleted =
      s.lines_deleted + (ls.filter fun l => decide (l.diff_type = DiffType.Delete)).length := by
  induction ls generalizing s with
  | nil => rfl
  | cons l rest ih =>
    rw [List.foldl_cons, ih]
    cases h : l.diff_type <;>
      simp [lineStep, h, List.filter_cons] <;> omega

theorem summaryFoldl_files_added (fds : List FileDiff) (s : ComparisonSummary) :
    (fds.foldl summaryStep s).files_added =
      s.files_added + (fds.filter fun d => decide (d.status = FileStatus.Added)).length := by
  induction fds generalizing s with
  | nil => rfl
  | cons d rest ih =>
    rw [List.foldl_cons, ih, summaryStep, lineFoldl_files_added]
    cases h : d.status <;> simp [statusStep, h, List.filter_cons] <;> omega

theorem summaryFoldl_files_deleted (fds : List FileDiff) (s : ComparisonSummary) :
    (fds.foldl summaryStep s).files_deleted =
      s.files_deleted + (fds.filter fun d => decide (d.status = FileStatus.Deleted)).length := by
  induction fds generalizing s with
  | nil => rfl
  | cons d rest ih =>
    rw [List.foldl_cons, ih, summaryStep, lineFoldl_files_deleted]
    cases h : d.status <;> simp [statusStep, h, List.filter_cons] <;> omega

theorem summaryFoldl_files_modified (fds : List FileDiff) (s : ComparisonSummary) :
    (fds.foldl summaryStep s).files_modified =
      s.files_modified + (fds.filter fun d => decide (d.status = FileStatus.Modified)).length := by
  induction fds generalizing s with
  | nil => rfl
  | cons d rest ih =>
    rw [List.foldl_cons, ih, summaryStep, lineFoldl_files_modified]
    cases h : d.status <;> simp [statusStep, h, List.filter_cons] <;> omega

theorem summaryFoldl_files_renamed (fds : List FileDiff) (s : ComparisonSummary) :
    (fds.foldl summaryStep s).files_renamed =
      s.files_renamed + (fds.filter fun d => isRenamedStatus d.status).length := by
  induction fds generalizing s with
  | nil => rfl
  | cons d rest ih =>
    rw [List.foldl_cons, ih, summaryStep, lineFoldl_files_renamed]
    cases h : d.status <;> simp [statusStep, h, isRenamedStatus, List.filter_cons] <;> omega

theorem summaryFoldl_lines_added (fds : List FileDiff) (s : ComparisonSummary) :
    (fds.foldl summaryStep s).lines_added =
      s.lines_added + (fds.map insCountOf).sum := by
  induction fds generalizing s with
  | nil => rfl
  | cons d rest ih =>
    rw [List.foldl_cons, ih, summaryStep, lineFoldl_lines_added]
    have hs : (statusStep s d).lines_added = s.lines_added := by
      cases h : d.status <;> simp [statusStep, h]
    rw [hs]
    simp [insCountOf]
    omega

theorem summaryFoldl_lines_deleted (fds : List FileDiff) (s : ComparisonSummary) :
    (fds.foldl summaryStep s).lines_deleted =
      s.lines_deleted + (fds.map delCountOf).sum := by
  induction fds generalizing s with
  | nil => rfl
  | cons d rest ih =>
    rw [List.foldl_cons, ih, summaryStep, lineFoldl_lines_deleted]
    have hs : (statusStep s d).lines_deleted = s.lines_deleted := by
      cases h : d.status <;> simp [statusStep, h]
    rw [hs]
    simp [delCountOf]
    omega

theorem insDel_eq_nonEqual (ls : List DiffLine)
    (h : ∀ l ∈ ls, l.diff_type ≠ DiffType.Replace) :
    (ls.filter fun l => decide (l.diff_type = DiffType.Insert)).length +
      (ls.filter fun l => decide (l.diff_type = DiffType.Delete)).length =
      (ls.filter fun l => decide (l.diff_type ≠ DiffType.Equal)).length := by
  induction ls with
  | nil => rfl
  | cons l rest ih =>
    have hl := h l (List.mem_cons_self l rest)
    have hrest := ih fun x hx => h x (List.mem_cons_of_mem l hx)
    cases hd : l.diff_type with
    | Equal => simpa [List.filter_cons, hd] using hrest
    | Insert =>
      simp [List.filter_cons, hd, decide_not] at hrest ⊢
      omega
    | Delete =>
      simp [List.filter_cons, hd, decide_not] at hrest ⊢
      omega
    | Replace => exact absurd hd hl

/-- C5: the summary is a pure function of the final file diffs, computed
in one pass: `files_added`/`files_deleted`/`files_modified`/`files_renamed`
count the files with the matching status, and (in the absence of the
never-emitted `Replace` tag) every non-Equal line contributes exactly one
increment — `Insert` lines to `lines_added`, `Delete` lines to
`lines_deleted`. -/
theorem C5_summary_is_derived (fds : List FileDiff)
    (hnr : ∀ d ∈ fds, ∀ l ∈ d.lines, l.diff_type ≠ DiffType.Replace) :
    (calculateSummary fds).files_added =
        (fds.filter fun d => decide (d.status = FileStatus.Added)).length ∧
    (calculateSummary fds).files_deleted =
        (fds.filter fun d => decide (d.status = FileStatus.Deleted)).length ∧
    (calculateSummary fds).files_modified =
        (fds.filter fun d => decide (d.status = FileStatus.Modified)).length ∧
    (calculateSummary fds).files_renamed =
        (fds.filter fun d => isRenamedStatus d.status).length ∧
    (calculateSummary fds).lines_added = (fds.map insCountOf).sum ∧
    (calculateSummary fds).lines_deleted = (fds.map delCountOf).sum ∧
    (calculateSummary fds).lines_added + (calculateSummary fds).lines_deleted =
      (fds.map neqCountOf).sum := by
  refine ⟨?_, ?_, ?_, ?_, ?_, ?_, ?_⟩
  · rw [calculateSummary, summaryFoldl_files_added]; simp
  · rw [calculateSummary, summaryFoldl_files_deleted]; simp
  · rw [calculateSummary, summaryFoldl_files_modified]; simp
  · rw [calculateSummary, summaryFoldl_files_renamed]; simp
  · rw [calculateSummary, summaryFoldl_lines_added]; simp
  · rw [calculateSummary, summaryFoldl_lines_deleted]; simp
  · rw [calculateSummary, summaryFoldl_lines_added, summaryFoldl_lines_deleted]
    simp only [Nat.zero_add]
    induction fds with
    | nil => rfl
    | cons d rest ih =>
      have hd := hnr d (List.mem_cons_self d rest)
      have hrest := ih fun x hx => hnr x (List.mem_cons_of_mem d hx)
      simp only [List.map_cons, List.sum_cons] at *
      have := insDel_eq_nonEqual d.lines hd
      simp only [insCountOf, delCountOf, neqCountOf] at *
      omega

/-- Witness for C5 at a concrete file list. -/
theorem C5_summary_is_derived_witness :
    (calculateSummary [w10A1, w10D]).files_added = 1 ∧
    (calculateSummary [w10A1, w10D]).lines_added +
        (calculateSummary [w10A1, w10D]).lines_deleted =
      ([w10A1, w10D].map neqCountOf).sum :=
  have h := C5_summary_is_derived [w10A1, w10D] (by decide)
  ⟨by rw [h.1]; decide, h.2.2.2.2.2.2⟩

/-- C6: with both sides classified binary, the result is `Unchanged` with
zero diff lines iff the two content hashes are equal; otherwise it is
`Modified` with exactly two synthetic lines — a `Delete` stating the left
file's size and an `Insert` stating the right file's size. -/
theorem C6_binary_compare (fa fb : FileModel) (ha hb : Nat)
    (hma : fa.metaOk = true) (hmb : fb.metaOk = true)
    (hha : fa.hashRead = some ha) (hhb : fb.hashRead = some hb) :
    ∃ d, compareBinaryFiles fa fb true true = .ok d ∧
      ((d.status = FileStatus.Unchanged ∧ d.lines = []) ↔ ha = hb) ∧
      (ha ≠ hb → d.status = FileStatus.Modified ∧
        d.lines = [⟨some 1, some 1, .Delete, binSizeContent fa.size, false⟩,
                   ⟨some 2, some 2, .Insert, binSizeContent fb.size, false⟩]) := by
  by_cases hab : ha = hb
  · refine ⟨mkBinDiff fa fb .Unchanged [], ?_, ?_, ?_⟩
    · rw [compareBinaryFiles]
      simp [hma, hmb, hha, hhb, hab]
    · simp [mkBinDiff, hab]
    · exact fun h => absurd hab h
  · refine ⟨mkBinDiff fa fb .Modified
      [⟨some 1, some 1, .Delete, binSizeContent fa.size, false⟩,
       ⟨some 2, some 2, .Insert, binSizeContent fb.size, false⟩], ?_, ?_, ?_⟩
    · rw [compareBinaryFiles]
      simp [hma, hmb, hha, hhb, hab]
    · simp [mkBinDiff, hab]
    · exact fun _ => ⟨rfl, rfl⟩

/-- Witness for C6 at two concrete binary files with distinct hashes. -/
theorem C6_binary_compare_witness :
    ∃ d, compareBinaryFiles fmBinA fmBinB true true = .ok d ∧
      ((d.status = FileStatus.Unchanged ∧ d.lines = []) ↔ (1 : Nat) = 2) ∧
      ((1 : Nat) ≠ 2 → d.status = FileStatus.Modified ∧
        d.lines = [⟨some 1, some 1, .Delete, binSizeContent fmBinA.size, false⟩,
                   ⟨some 2, some 2, .Insert, binSizeContent fmBinB.size, false⟩]) :=
  C6_binary_compare fmBinA fmBinB 1 2 rfl rfl rfl rfl

/-- C8: a file whose size exceeds 10 MiB makes `read_text_file` fail with
the too-large error whatever its content oracles hold (the content is
never consulted), and `compare_files` downgrades that failure to the
single-line diagnostic `FileDiff` with `status = Modified` instead of
propagating it. -/
theorem C8_too_large (cfg : ComparisonConfig) (fa fb : FileModel)
    (cs : List Chunk) (cwd : FileStats)
    (hba : fa.isBinary = .ok false) (hbb : fb.isBinary = .ok false)
    (hm : fa.metaOk = true) (hs : fa.size > 10 * 1024 * 1024) :
    readTextFile fa = .error .tooLarge ∧
    compareFiles cfg fa fb cs cwd = .ok (createErrorFileDiff fa fb cwd .tooLarge) ∧
    (createErrorFileDiff fa fb cwd .tooLarge).status = FileStatus.Modified := by
  have hr : readTextFile fa = .error .tooLarge := by
    rw [readTextFile]
    simp [hm, hs]
  refine ⟨hr, ?_, rfl⟩
  rw [compareFiles]
  simp [hba, hbb, hr, exceptOkBind]

/-- Witness for C8 at a concrete oversized file. -/
theorem C8_too_large_witness :
    readTextFile fmHuge = .error .tooLarge ∧
    compareFiles cfgDefault fmHuge fmPlain [] statsZero =
      .ok (createErrorFileDiff fmHuge fmPlain statsZero .tooLarge) ∧
    (createErrorFileDiff fmHuge fmPlain statsZero .tooLarge).status =
      FileStatus.Modified :=
  C8_too_large cfgDefault fmHuge fmPlain [] statsZero rfl rfl rfl (by decide)

theorem compareBinaryFiles_iff (fa fb : FileModel) (ba bb : Bool) (d : FileDiff)
    (h : compareBinaryFiles fa fb ba bb = .ok d) :
    d.status = FileStatus.Unchanged ↔ ∀ l ∈ d.lines, l.diff_type = DiffType.Equal := by
  rw [compareBinaryFiles] at h
  split at h
  · exact Except.noConfusion h
  · split at h
    · exact Except.noConfusion h
    · split at h
      · split at h
        · split at h
          · injection h with h
            subst h
            simp [mkBinDiff]
          · injection h with h
            subst h
            constructor
            · intro hst
              exact absurd hst (by simp [mkBinDiff])
            · intro hall
              have := hall ⟨some 1, some 1, .Delete, binSizeContent fa.size, false⟩
                (by simp [mkBinDiff])
              exact absurd this (by simp)
        · exact Except.noConfusion h
      · injection h with h
        subst h
        constructor
        · intro hst
          exact absurd hst (by simp [mkBinDiff])
        · intro hall
          have := hall ⟨some 1, some 1, .Delete, mixedContent ba fa.size, false⟩
            (by simp [mkBinDiff])
          exact absurd this (by simp)

theorem statusIf_iff (dl : List DiffLine) :
    ((if dl.all (fun l => decide (l.diff_type = DiffType.Equal)) then
        FileStatus.Unchanged
      else FileStatus.Modified) = FileStatus.Unchanged) ↔
      ∀ l ∈ dl, l.diff_type = DiffType.Equal := by
  by_cases hc : (dl.all fun l => decide (l.diff_type = DiffType.Equal)) = true
  · have hall : ∀ l ∈ dl, l.diff_type = DiffType.Equal :=
      fun l hl => decide_eq_true_eq.mp (List.all_eq_true.mp hc l hl)
    simp only [hc, if_true, true_iff]
    exact hall
  · have hnall : ¬ ∀ l ∈ dl, l.diff_type = DiffType.Equal := fun hall =>
      hc (List.all_eq_true.mpr fun l hl => decide_eq_true_eq.mpr (hall l hl))
    simp [hc, hnall]

/-- C4 restricted to the paths where it does hold: a `FileDiff` produced
by the text-comparison path (both reads succeeded) or by the binary
comparator has `status = Unchanged` iff every line is `Equal`.  (The
diagnostic `FileDiff` of an unreadable file violates the biconditional —
see the counterexample — and the repository status query is computed
independently of the lines.) -/
theorem C4_amended :
    (∀ (cfg : ComparisonConfig) (fa fb : FileModel) (cs : List Chunk)
        (cwd : FileStats) (d : FileDiff) (ca cb : Str),
      fa.isBinary = .ok false → fb.isBinary = .ok false →
      readTextFile fa = .ok ca → readTextFile fb = .ok cb →
      compareFiles cfg fa fb cs cwd = .ok d →
      (d.status = FileStatus.Unchanged ↔
        ∀ l ∈ d.lines, l.diff_type = DiffType.Equal)) ∧
    (∀ (fa fb : FileModel) (ba bb : Bool) (d : FileDiff),
      compareBinaryFiles fa fb ba bb = .ok d →
      (d.status = FileStatus.Unchanged ↔
        ∀ l ∈ d.lines, l.diff_type = DiffType.Equal)) := by
  constructor
  · intro cfg fa fb cs cwd d ca cb hba hbb hra hrb hcmp
    rw [compareFiles] at hcmp
    rw [hba, hbb, exceptOkBind, exceptOkBind] at hcmp
    rw [if_neg (by simp)] at hcmp
    split at hcmp
    · rename_i e heq
      rw [hra] at heq
      exact Except.noConfusion heq
    · rename_i ca' heqa
      split at hcmp
      · rename_i e heq
        rw [hrb] at heq
        exact Except.noConfusion heq
      · rename_i cb' heqb
        split at hcmp
        · split at hcmp
          · simp at hcmp
          · split at hcmp
            · simp at hcmp
            · simp only [Except.ok.injEq] at hcmp
              subst hcmp
              exact statusIf_iff _
        · split at hcmp
          · simp at hcmp
          · split at hcmp
            · simp at hcmp
            · simp only [Except.ok.injEq] at hcmp
              subst hcmp
              exact statusIf_iff _
  · exact compareBinaryFiles_iff

/-- C4 witness: the amended biconditional applied at a concrete readable
text pair. -/
theorem C4_amended_witness :
    (compareFiles cfgDefault fmPlain fmPlain [Chunk.equal "x".data] statsZero =
        .ok ⟨fmPlain.path, .Unchanged,
          [⟨some 1, some 1, .Equal, "x".data, false⟩],
          ⟨1, 1, none⟩, ⟨1, 1, none⟩⟩) ∧
    ((⟨fmPlain.path, .Unchanged, [⟨some 1, some 1, .Equal, "x".data, false⟩],
        ⟨1, 1, none⟩, ⟨1, 1, none⟩⟩ : FileDiff).status = FileStatus.Unchanged ↔
      ∀ l ∈ (⟨fmPlain.path, .Unchanged,
          [⟨some 1, some 1, .Equal, "x".data, false⟩],
          ⟨1, 1, none⟩, ⟨1, 1, none⟩⟩ : FileDiff).lines,
        l.diff_type = DiffType.Equal) :=
  ⟨rfl, C4_amended.1 cfgDefault fmPlain fmPlain [Chunk.equal "x".data]
    statsZero _ "x".data "x".data rfl rfl rfl rfl rfl⟩

/-- C4 is false as stated: `compare_files` on an unreadable (non-binary)
file returns the diagnostic `FileDiff`, whose single line is `Equal` while
its status is `Modified`, so "`Unchanged` iff all lines `Equal`" fails. -/
theorem C4_counterexample : ¬C4Claim := by
  intro h
  have hiff := h cfgDefault fmUnreadable fmPlain [] statsZero
    (createErrorFileDiff fmUnreadable fmPlain statsZero .readFail) rfl
  have hall : ∀ l ∈ (createErrorFileDiff fmUnreadable fmPlain statsZero
      DiffErr.readFail).lines, l.diff_type = DiffType.Equal := by decide
  have := hiff.mpr hall
  exact absurd this (by decide)

/-- C7 restricted to the case where it holds: for nonempty line lists free
of binary-marker lines, the computed similarity equals the spec's Jaccard
index of the sets of distinct trimmed line contents (whose union is then
nonempty).  For empty inputs the code returns `0`, not the spec's `1` —
see the counterexample. -/
theorem C7_amended (a b : List DiffLine) (ha : a ≠ []) (hb : b ≠ [])
    (hma : ∀ l ∈ a, hasBinMarker l = false)
    (hmb : ∀ l ∈ b, hasBinMarker l = false) :
    calculateSimilarity a b =
      specSimilarity (trimmedSetSpec a) (trimmedSetSpec b) := by
  have hsa : trimmedContentSet a = trimmedSetSpec a := by
    rw [trimmedContentSet, trimmedSetSpec,
      List.filter_eq_self.mpr fun x hx => by rw [hma x hx]; rfl]
  have hsb : trimmedContentSet b = trimmedSetSpec b := by
    rw [trimmedContentSet, trimmedSetSpec,
      List.filter_eq_self.mpr fun x hx => by rw [hmb x hx]; rfl]
  have hane : (trimmedSetSpec a).Nonempty := by
    rcases a with _ | ⟨x, rest⟩
    · exact absurd rfl ha
    · exact ⟨trimStr x.content, by simp [trimmedSetSpec]⟩
  have hAnyA : a.any hasBinMarker = false := by
    rw [List.any_eq_false]
    intro x hx
    simp [hma x hx]
  have hAnyB : b.any hasBinMarker = false := by
    rw [List.any_eq_false]
    intro x hx
    simp [hmb x hx]
  rw [calculateSimilarity]
  rw [if_neg (by simp [ha, hb])]
  rw [if_neg (by simp [hAnyA, hAnyB])]
  simp only [hsa, hsb]
  have huni : (trimmedSetSpec a ∪ trimmedSetSpec b).card ≠ 0 := by
    have := hane.choose_spec
    exact Finset.card_ne_zero_of_mem (Finset.mem_union_left _ this)
  rw [if_neg huni, specSimilarity]
  rw [if_neg (by
    intro hcon
    rw [hcon.1] at hane
    exact Finset.not_nonempty_empty hane)]
  rw [Rat.mkRat_eq_divInt, Rat.divInt_eq_div]
  push_cast
  ring

/-- C7 witness: the amended equation at concrete one-line files. -/
theorem C7_amended_witness :
    calculateSimilarity w10D.lines w10A1.lines =
      specSimilarity (trimmedSetSpec w10D.lines) (trimmedSetSpec w10A1.lines) :=
  C7_amended w10D.lines w10A1.lines (by decide) (by decide) (by decide) (by decide)

/-- C7 is false as stated: two empty line lists have similarity `0.0` in
the code (the `lines_a.is_empty() || lines_b.is_empty()` guard fires),
while the spec's Jaccard index of two empty sets is defined as `1.0`. -/
theorem C7_counterexample : ¬C7Claim := by
  intro h
  have h0 : calculateSimilarity ([] : List DiffLine) [] = 0 := rfl
  have h1 : specSimilarity (trimmedSetSpec []) (trimmedSetSpec []) = 1 := by
    simp [specSimilarity, trimmedSetSpec]
  have := (h [] []).symm.trans h0
  rw [h1] at this
  norm_num at this

theorem getContentOk (o : SubpOut) (h : OracleLaunched o) :
    ∃ s, getFileContentAtCommit o = .ok s := by
  match o with
  | none => exact absurd rfl h
  | some (false, out) => exact ⟨[], rfl⟩
  | some (true, out) => exact ⟨out, rfl⟩

theorem getRenamedOk (o : SubpOut) (p : Str) (h : OracleLaunched o) :
    ∃ r, getRenamedFromPath o p = .ok r := by
  match o with
  | none => exact absurd rfl h
  | some (flag, out) => exact ⟨_, rfl⟩

theorem statusScanOk (lines : List Str) (logO : SubpOut) (fp : Str)
    (h : OracleLaunched logO) : ∃ st, statusScan lines logO fp = .ok st := by
  induction lines with
  | nil => exact ⟨.Unchanged, rfl⟩
  | cons line rest ih =>
    cases hsp : splitOnce '\t' line with
    | none => simpa only [statusScan, hsp] using ih
    | some stp =>
      obtain ⟨st, p⟩ := stp
      simp only [statusScan, hsp]
      by_cases hp : p = fp
      · simp only [if_pos hp]
        by_cases hA : st = "A".data
        · exact ⟨_, by rw [if_pos hA]⟩
        · simp only [if_neg hA]
          by_cases hD : st = "D".data
          · exact ⟨_, by rw [if_pos hD]⟩
          · simp only [if_neg hD]
            by_cases hM : st = "M".data
            · exact ⟨_, by rw [if_pos hM]⟩
            · simp only [if_neg hM]
              by_cases hR : st = "R".data
              · simp only [if_pos hR]
                obtain ⟨r, hr⟩ := getRenamedOk logO fp h
                rw [hr]
                cases r with
                | none => exact ih
                | some old => exact ⟨_, rfl⟩
              · simp only [if_neg hR]
                by_cases hC : st = "C".data
                · exact ⟨_, by rw [if_pos hC]⟩
                · simpa only [if_neg hC] using ih
      · simpa only [if_neg hp] using ih

theorem getFileStatusOk (o logO : SubpOut) (fp : Str)
    (ho : OracleLaunched o) (hl : OracleLaunched logO) :
    ∃ st, getFileStatus o logO fp = .ok st := by
  match o with
  | none => exact absurd rfl ho
  | some (false, out) => exact ⟨.Unchanged, rfl⟩
  | some (true, out) => exact statusScanOk (rustLines out) logO fp hl

theorem getCommitTimeOk (o : SubpOut) (h : OracleLaunched o)
    (hp : TimeParses o) : ∃ t, getCommitTime o = .ok t := by
  match o with
  | none => exact absurd rfl h
  | some (false, out) => exact ⟨0, rfl⟩
  | some (true, out) =>
    obtain ⟨t, ht⟩ := Option.isSome_iff_exists.mp (hp out rfl)
    exact ⟨t, by simp only [getCommitTime, ht]⟩

theorem compareGitFileOk (fo : GitFileOracles) (fp : Str)
    (cfg : ComparisonConfig) (h : PerFileTaskOk fo) :
    ∃ d, compareGitFile fo fp cfg = .ok d := by
  obtain ⟨h1, h2, h3, h4, h5, h6, h7, h8⟩ := h
  obtain ⟨lc, hlc⟩ := getContentOk _ h1
  obtain ⟨rc, hrc⟩ := getContentOk _ h2
  obtain ⟨st, hst⟩ := getFileStatusOk _ _ fp h3 h4
  obtain ⟨lt, hlt⟩ := getCommitTimeOk _ h5 h7
  obtain ⟨rt, hrt⟩ := getCommitTimeOk _ h6 h8
  refine ⟨⟨fp, st, computeGitLineDiff fo.changes,
    ⟨lc.length, (rustLines lc).length, some lt⟩,
    ⟨rc.length, (rustLines rc).length, some rt⟩⟩, ?_⟩
  simp only [compareGitFile, getGitFileStats, hlc, hrc, hst, hlt, hrt,
    exceptOkBind]

theorem mapMOk {α β : Type} (f : α → Except DiffErr β) (l : List α)
    (h : ∀ x ∈ l, ∃ y, f x = .ok y) : ∃ ys, l.mapM f = .ok ys := by
  induction l with
  | nil => exact ⟨[], rfl⟩
  | cons x xs ih =>
    obtain ⟨y, hy⟩ := h x (List.mem_cons_self x xs)
    obtain ⟨ys, hys⟩ := ih fun z hz => h z (List.mem_cons_of_mem x hz)
    refine ⟨y :: ys, ?_⟩
    rw [List.mapM_cons, hy, exceptOkBind, hys, exceptOkBind]
    rfl

/-- C2 as it actually holds: per-file subprocess queries that merely exit
non-zero never fail the repository compare (they are swallowed as empty
content, `Unchanged` status, or timestamp `0`): whenever every per-file
subprocess launches and every successful commit-time output parses, the
whole compare succeeds.  A per-file task that returns an error, however,
aborts the entire compare, because the per-file results are collected
fail-fast — see the counterexample. -/
theorem C2_amended (w : GitWorld) (p : GitComparisonParams)
    (cfg : ComparisonConfig) (out : Str)
    (hrepo : w.isRepo = true) (hq : w.changedQuery = some (true, out))
    (hok : ∀ f, PerFileTaskOk (w.perFile f)) :
    ∃ ds, GitIntegration.compare w p cfg = .ok ds := by
  rw [GitIntegration.compare, if_neg (by simp [hrepo]), hq]
  obtain ⟨lst, hl⟩ : ∃ l, getChangedFiles (some (true, out)) = .ok l := ⟨_, rfl⟩
  rw [hl, exceptOkBind]
  exact mapMOk _ _ fun f _ => compareGitFileOk (w.perFile f) f cfg (hok f)

theorem gfoGoodTaskOk : PerFileTaskOk gfoGood := by
  refine ⟨by intro h; exact Option.noConfusion h,
    by intro h; exact Option.noConfusion h,
    by intro h; exact Option.noConfusion h,
    by intro h; exact Option.noConfusion h,
    by intro h; exact Option.noConfusion h,
    by intro h; exact Option.noConfusion h, ?_, ?_⟩
  · intro o h
    simp only [gfoGood, Option.some.injEq, Prod.mk.injEq] at h
    rw [← h.2]
    decide
  · intro o h
    simp only [gfoGood, Option.some.injEq, Prod.mk.injEq] at h
    rw [← h.2]
    decide

/-- Witness for C2's amended statement at a concrete repository world. -/
theorem C2_amended_witness :
    ∃ ds, GitIntegration.compare
        ⟨true, some (true, "M\ta.txt".data), fun _ => gfoGood, fun _ _ => false⟩
        paramsEmpty cfgDefault = .ok ds :=
  C2_amended _ paramsEmpty cfgDefault "M\ta.txt".data rfl rfl
    (fun _ => gfoGoodTaskOk)

/-- C2 is false as stated: in the world `wBadTime` the repository is
valid and the changed-file-list query succeeds, yet the unparsable
commit-time output of one file's task makes the whole `compare` call
return an error (`collect::<Result<Vec<_>>>` is fail-fast), instead of
isolating that file. -/
theorem C2_counterexample : ¬C2Claim := by
  intro h
  obtain ⟨ds, hds⟩ := h wBadTime paramsEmpty cfgDefault rfl
    ⟨"M\ta.txt\nM\tb.txt".data, rfl⟩
  have : GitIntegration.compare wBadTime paramsEmpty cfgDefault =
      .error .badTimestamp := by decide
  rw [this] at hds
  exact Except.noConfusion hds

/-- C9's true core, amended: fetching content at a ref where the file is
absent (non-zero exit) yields empty content and no error; an invalid
repository and a failed (or unlaunchable) changed-file-list query are
comparison-fatal.  They are however not the *only* fatal points — a
per-file launch failure or malformed timestamp is fatal too, as the
counterexample shows. -/
theorem C9_amended :
    (∀ out : Str, getFileContentAtCommit (some (false, out)) = .ok []) ∧
    (∀ (w : GitWorld) (p : GitComparisonParams) (cfg : ComparisonConfig),
      w.isRepo = false → GitIntegration.compare w p cfg = .error .notGitRepo) ∧
    (∀ (w : GitWorld) (p : GitComparisonParams) (cfg : ComparisonConfig)
        (out : Str),
      w.isRepo = true → w.changedQuery = some (false, out) →
      GitIntegration.compare w p cfg = .error .gitDiffFailed) ∧
    (∀ (w : GitWorld) (p : GitComparisonParams) (cfg : ComparisonConfig),
      w.isRepo = true → w.changedQuery = none →
      GitIntegration.compare w p cfg = .error .spawnFail) := by
  refine ⟨fun out => rfl, ?_, ?_, ?_⟩
  · intro w p cfg hrepo
    rw [GitIntegration.compare, if_pos (by simp [hrepo])]
  · intro w p cfg out hrepo hq
    rw [GitIntegration.compare, if_neg (by simp [hrepo]), hq]
    rfl
  · intro w p cfg hrepo hq
    rw [GitIntegration.compare, if_neg (by simp [hrepo]), hq]
    rfl

/-- Witness for C9's amended statement at concrete inputs. -/
theorem C9_amended_witness :
    getFileContentAtCommit (some (false, "gone".data)) = .ok [] ∧
    GitIntegration.compare
        ⟨false, some (true, []), fun _ => gfoGood, fun _ _ => false⟩
        paramsEmpty cfgDefault = .error .notGitRepo ∧
    GitIntegration.compare
        ⟨true, some (false, "boom".data), fun _ => gfoGood, fun _ _ => false⟩
        paramsEmpty cfgDefault = .error .gitDiffFailed ∧
    GitIntegration.compare
        ⟨true, none, fun _ => gfoGood, fun _ _ => false⟩
        paramsEmpty cfgDefault = .error .spawnFail :=
  ⟨C9_amended.1 "gone".data,
   C9_amended.2.1 _ paramsEmpty cfgDefault rfl,
   C9_amended.2.2.1 _ paramsEmpty cfgDefault "boom".data rfl rfl,
   C9_amended.2.2.2 _ paramsEmpty cfgDefault rfl rfl⟩

/-- C9 is false as stated (its second clause): in the world `wNoLaunch`
the repository-validity check and the changed-file-list query both
succeed, yet the compare still fails because one file's content
subprocess could not be launched — that per-file failure is also
comparison-fatal. -/
theorem C9_counterexample : ¬C9Claim := by
  intro h
  obtain ⟨ds, hds⟩ := h.2 wNoLaunch paramsEmpty cfgDefault rfl
    ⟨"M\ta.txt\nM\tb.txt".data, rfl⟩
  have : GitIntegration.compare wNoLaunch paramsEmpty cfgDefault =
      .error .spawnFail := by decide
  rw [this] at hds
  exact Except.noConfusion hds

theorem countEqDel_gitAux (chs : List Change) (l r : Nat) :
    countEqDel (computeGitLineDiffAux chs l r) =
      (chs.filter fun c => decide (c.tag ≠ ChangeTag.insert)).length := by
  induction chs generalizing l r with
  | nil => rfl
  | cons c rest ih =>
    obtain ⟨tag, v⟩ := c
    cases tag <;>
      simp [computeGitLineDiffAux, countEqDel, List.filter_cons, decide_not] <;>
      have := ih (l + 1) (r + 1) <;>
      have := ih (l + 1) r <;>
      have := ih l (r + 1) <;>
      simp [countEqDel, decide_not] at * <;>
      omega

theorem countEqIns_gitAux (chs : List Change) (l r : Nat) :
    countEqIns (computeGitLineDiffAux chs l r) =
      (chs.filter fun c => decide (c.tag ≠ ChangeTag.delete)).length := by
  induction chs generalizing l r with
  | nil => rfl
  | cons c rest ih =>
    obtain ⟨tag, v⟩ := c
    cases tag <;>
      simp [computeGitLineDiffAux, countEqIns, List.filter_cons, decide_not] <;>
      have := ih (l + 1) (r + 1) <;>
      have := ih (l + 1) r <;>
      have := ih l (r + 1) <;>
      simp [countEqIns, decide_not] at * <;>
      omega

theorem splitIncl_no_nl (l : Str) (hnl : '\n' ∉ l) (hne : l ≠ []) :
    splitIncl l = [l] := by
  induction l with
  | nil => exact absurd rfl hne
  | cons c cs ih =>
    have hc : c ≠ '\n' := fun h => hnl (h ▸ List.mem_cons_self c cs)
    simp only [splitIncl, if_neg hc]
    by_cases hcs : cs = []
    · subst hcs
      rfl
    · rw [ih (fun h => hnl (List.mem_cons_of_mem c h)) hcs]

theorem splitIncl_append_nl (l s : Str) (hnl : '\n' ∉ l) :
    splitIncl (l ++ '\n' :: s) = (l ++ ['\n']) :: splitIncl s := by
  induction l with
  | nil => simp [splitIncl]
  | cons c cs ih =>
    have hc : c ≠ '\n' := fun h => hnl (h ▸ List.mem_cons_self c cs)
    simp only [List.cons_append, splitIncl, if_neg hc, List.append_eq]
    rw [ih fun h => hnl (List.mem_cons_of_mem c h)]

theorem splitIncl_join_length (la : List Str) (h : LinesWF la) :
    (splitIncl (joinLines la)).length = la.length := by
  induction la with
  | nil => rfl
  | cons l rest ih =>
    obtain ⟨hnl, hlast⟩ := h
    cases rest with
    | nil =>
      have hne : l ≠ [] := by
        intro he
        apply hlast
        rw [he]
        rfl
      rw [show joinLines [l] = l from rfl,
        splitIncl_no_nl l (hnl l (List.mem_cons_self l [])) hne]
    | cons l2 rest2 =>
      rw [show joinLines (l :: l2 :: rest2) =
        l ++ '\n' :: joinLines (l2 :: rest2) from rfl]
      rw [splitIncl_append_nl _ _ (hnl l (List.mem_cons_self l (l2 :: rest2)))]
      simp only [List.length_cons]
      rw [ih ⟨fun x hx => hnl x (List.mem_cons_of_mem l hx), by
        have h2 := hlast
        rw [List.getLast?_cons_cons] at h2
        exact h2⟩]
      rfl

/-- C1 as it actually holds, for the repository variant
(`compute_git_line_diff`, line-granularity tokens): provided no input line
contains a newline and neither input ends with an empty line, the number
of Equal+Delete rows equals the left line count and Equal+Insert the right
line count.  As stated — for all inputs, and for the character-granularity
`compute_line_diff` as well — the claim is false: joining with `"\n"` and
re-splitting loses a trailing empty line, see the counterexample. -/
theorem C1_amended (la lb : List Str) (chs : List Change)
    (hwa : LinesWF la) (hwb : LinesWF lb)
    (hv : changesValid chs (joinLines la) (joinLines lb)) :
    countEqDel (computeGitLineDiff chs) = la.length ∧
    countEqIns (computeGitLineDiff chs) = lb.length := by
  constructor
  · rw [computeGitLineDiff, countEqDel_gitAux]
    have hlen := congrArg List.length hv.1
    rw [changeEqDelTokens, List.length_map] at hlen
    rw [hlen, splitIncl_join_length la hwa]
  · rw [computeGitLineDiff, countEqIns_gitAux]
    have hlen := congrArg List.length hv.2
    rw [changeEqInsTokens, List.length_map] at hlen
    rw [hlen, splitIncl_join_length lb hwb]

/-- Witness for C1's amended statement at a concrete one-line pair. -/
theorem C1_amended_witness :
    countEqDel (computeGitLineDiff
        [⟨.delete, "a".data⟩, ⟨.insert, "b".data⟩]) =
      (["a".data] : List Str).length ∧
    countEqIns (computeGitLineDiff
        [⟨.delete, "a".data⟩, ⟨.insert, "b".data⟩]) =
      (["b".data] : List Str).length :=
  C1_amended ["a".data] ["b".data] [⟨.delete, "a".data⟩, ⟨.insert, "b".data⟩]
    (by constructor <;> decide) (by constructor <;> decide) ⟨rfl, rfl⟩

/-- C1 is false as stated: for the left input consisting of one empty
line and the right input `["x"]`, the joined texts are `""` and `"x"`;
every reconstruction-valid chunk list (the external differ returns
`[Insert "x"]`) yields zero Equal+Delete rows where the claim demands
one.  The same input refutes the repository variant. -/
theorem C1_counterexample : ¬C1Claim := by
  intro h
  have h1 := (h.1 [[]] [['x']] [Chunk.insert ['x']] ⟨rfl, rfl⟩).1
  have h0 : countEqDel (computeLineDiff [Chunk.insert ['x']]) = 0 := rfl
  rw [h0] at h1
  exact absurd h1 (by decide)

theorem lookup_of_mem_nodupKeys (l : List (Nat × Str)) (i : Nat) (p : Str)
    (hnd : (l.map Prod.fst).Nodup) (hm : (i, p) ∈ l) : l.lookup i = some p := by
  induction l with
  | nil => cases hm
  | cons x xs ih =>
    obtain ⟨k, v⟩ := x
    rcases List.mem_cons.mp hm with heq | hm'
    · cases heq
      simp [List.lookup]
    · have hne : i ≠ k := by
        intro he
        have hmm : i ∈ xs.map Prod.fst := List.mem_map_of_mem Prod.fst hm'
        rw [he] at hmm
        exact (List.nodup_cons.mp hnd).1 hmm
      have hbeq : (i == k) = false := beq_eq_false_iff_ne.mpr hne
      simp [List.lookup, hbeq, ih (List.nodup_cons.mp hnd).2 hm']

theorem lookup_eq_none_of_not_mem_keys (l : List (Nat × Str)) (i : Nat)
    (h : i ∉ l.map Prod.fst) : l.lookup i = none := by
  induction l with
  | nil => rfl
  | cons x xs ih =>
    obtain ⟨k, v⟩ := x
    have hne : i ≠ k := by
      intro he
      exact h (by rw [List.map_cons, he]; exact List.mem_cons_self k _)
    have hbeq : (i == k) = false := beq_eq_false_iff_ne.mpr hne
    simp only [List.lookup, hbeq]
    exact ih fun hk => h (List.mem_cons_of_mem _ hk)

theorem renameMappings_fst_sublist (cfg : ComparisonConfig)
    (diffs : List FileDiff) :
    ((renameMappings cfg diffs).map Prod.fst).Sublist
      ((addedEntries diffs).map Prod.fst) := by
  rw [renameMappings]
  generalize addedEntries diffs = l
  induction l with
  | nil => simp
  | cons x xs ih =>
    rw [List.filterMap_cons]
    cases hfm : firstRenameMatch cfg (deletedEntries diffs) x.2 with
    | none =>
      simp only [Option.map_none']
      exact ih.cons _
    | some old =>
      simp only [Option.map_some', List.map_cons]
      exact ih.cons₂ _

theorem renameMappings_keys_nodup (cfg : ComparisonConfig)
    (diffs : List FileDiff) :
    ((renameMappings cfg diffs).map Prod.fst).Nodup := by
  have h1 : ((addedEntries diffs).map Prod.fst).Nodup := by
    rw [addedEntries]
    exact (List.nodup_enum_map_fst diffs).sublist
      ((List.filter_sublist _).map _)
  exact h1.sublist (renameMappings_fst_sublist cfg diffs)

theorem applyRenames_getElem? (m : List (Nat × Str)) (diffs : List FileDiff)
    (i : Nat) :
    (applyRenames m diffs)[i]? = (diffs[i]?).map fun d =>
      match m.lookup i with
      | some old => { d with status := FileStatus.Renamed old }
      | none => d := by
  rw [applyRenames, List.getElem?_map, List.getElem?_enum]
  cases diffs[i]? <;> rfl

theorem mem_renameMappings (cfg : ComparisonConfig) (diffs : List FileDiff)
    (i : Nat) (A : FileDiff) (p : Str)
    (hg : diffs[i]? = some A) (hst : A.status = FileStatus.Added)
    (hlines : A.lines ≠ [])
    (hfm : firstRenameMatch cfg (deletedEntries diffs) A = some p) :
    (i, p) ∈ renameMappings cfg diffs := by
  have hmem : (i, A) ∈ addedEntries diffs := by
    rw [addedEntries]
    refine List.mem_filter.mpr ⟨List.mk_mem_enum_iff_getElem?.mpr hg, ?_⟩
    simp [hst, hlines]
  rw [renameMappings]
  exact List.mem_filterMap.mpr ⟨(i, A), hmem, by rw [hfm]; rfl⟩

theorem renamed_mem_output (cfg : ComparisonConfig) (diffs : List FileDiff)
    (i : Nat) (A : FileDiff) (p : Str)
    (hg : diffs[i]? = some A) (hst : A.status = FileStatus.Added)
    (hlines : A.lines ≠ [])
    (hfm : firstRenameMatch cfg (deletedEntries diffs) A = some p) :
    { A with status := FileStatus.Renamed p } ∈ detectRenames cfg diffs := by
  have hm := mem_renameMappings cfg diffs i A p hg hst hlines hfm
  have hlk := lookup_of_mem_nodupKeys _ i p (renameMappings_keys_nodup cfg diffs) hm
  have hget : (applyRenames (renameMappings cfg diffs) diffs)[i]? =
      some { A with status := FileStatus.Renamed p } := by
    rw [applyRenames_getElem?, hg, Option.map_some', hlk]
  simp only [detectRenames]
  refine List.mem_filter.mpr ⟨List.getElem?_mem hget, ?_⟩
  simp

theorem deleted_path_removed (cfg : ComparisonConfig) (diffs : List FileDiff)
    (i : Nat) (A : FileDiff) (p : Str)
    (hg : diffs[i]? = some A) (hst : A.status = FileStatus.Added)
    (hlines : A.lines ≠ [])
    (hfm : firstRenameMatch cfg (deletedEntries diffs) A = some p) :
    ∀ d ∈ detectRenames cfg diffs,
      ¬(d.status = FileStatus.Deleted ∧ d.path = p) := by
  intro d hd hcon
  have hm := mem_renameMappings cfg diffs i A p hg hst hlines hfm
  have hp : p ∈ (renameMappings cfg diffs).map Prod.snd :=
    List.mem_map_of_mem Prod.snd hm
  simp only [detectRenames] at hd
  obtain ⟨_, hpred⟩ := List.mem_filter.mp hd
  rw [hcon.2] at hpred
  simp [hcon.1, hp] at hpred

theorem added_empty_lines_kept (cfg : ComparisonConfig)
    (diffs : List FileDiff) (A : FileDiff)
    (hA : A ∈ diffs) (hst : A.status = FileStatus.Added)
    (hempty : A.lines = []) : A ∈ detectRenames cfg diffs := by
  obtain ⟨i, hg⟩ := List.getElem?_of_mem hA
  have hkey : i ∉ (renameMappings cfg diffs).map Prod.fst := by
    intro hk
    obtain ⟨⟨i', q⟩, hmem, hfst⟩ := List.mem_map.mp hk
    rw [renameMappings] at hmem
    obtain ⟨pa, hpa, hpeq⟩ := List.mem_filterMap.mp hmem
    obtain ⟨i2, d2⟩ := pa
    cases hfm2 : firstRenameMatch cfg (deletedEntries diffs) d2 with
    | none =>
      rw [hfm2] at hpeq
      exact Option.noConfusion hpeq
    | some old =>
      rw [hfm2] at hpeq
      injection hpeq with hpeq
      have hi2 : i2 = i := by
        have := congrArg Prod.fst hpeq
        simp at this hfst
        rw [this, hfst]
      rw [addedEntries] at hpa
      obtain ⟨henum, hpredd⟩ := List.mem_filter.mp hpa
      have hgd : diffs[i2]? = some d2 :=
        List.mk_mem_enum_iff_getElem?.mp henum
      rw [hi2, hg] at hgd
      injection hgd with hgd
      rw [← hgd] at hpredd
      simp [hempty] at hpredd
  have hlk := lookup_eq_none_of_not_mem_keys _ i hkey
  have hget : (applyRenames (renameMappings cfg diffs) diffs)[i]? = some A := by
    rw [applyRenames_getElem?, hg, Option.map_some', hlk]
  simp only [detectRenames]
  refine List.mem_filter.mpr ⟨List.getElem?_mem hget, ?_⟩
  simp [hst]

/-- C10: rename detection is not one-to-one — any number of `Added`
entries whose first above-threshold deleted candidate is the same
`Deleted` entry all become `Renamed` with that entry's path as
`old_path`, and every `Deleted` entry with that path is removed from the
result; an `Added` entry with an empty lines list is never considered and
survives unchanged. -/
theorem C10_rename_not_one_to_one :
    (∀ (cfg : ComparisonConfig) (diffs : List FileDiff) (i j : Nat)
        (A B : FileDiff) (p : Str), i ≠ j →
      diffs[i]? = some A → diffs[j]? = some B →
      A.status = FileStatus.Added → B.status = FileStatus.Added →
      A.lines ≠ [] → B.lines ≠ [] →
      firstRenameMatch cfg (deletedEntries diffs) A = some p →
      firstRenameMatch cfg (deletedEntries diffs) B = some p →
      ({ A with status := FileStatus.Renamed p } ∈ detectRenames cfg diffs ∧
       { B with status := FileStatus.Renamed p } ∈ detectRenames cfg diffs ∧
       ∀ d ∈ detectRenames cfg diffs,
         ¬(d.status = FileStatus.Deleted ∧ d.path = p))) ∧
    (∀ (cfg : ComparisonConfig) (diffs : List FileDiff) (A : FileDiff),
      A ∈ diffs → A.status = FileStatus.Added → A.lines = [] →
      A ∈ detectRenames cfg diffs) := by
  constructor
  · intro cfg diffs i j A B p _ hgA hgB hstA hstB hlA hlB hfmA hfmB
    exact ⟨renamed_mem_output cfg diffs i A p hgA hstA hlA hfmA,
      renamed_mem_output cfg diffs j B p hgB hstB hlB hfmB,
      deleted_path_removed cfg diffs i A p hgA hstA hlA hfmA⟩
  · exact added_empty_lines_kept

/-- Witness for C10 at a concrete three-entry diff list where both added
entries first-match the same deleted entry. -/
theorem C10_rename_not_one_to_one_witness :
    ({ w10A1 with status := FileStatus.Renamed "old".data } ∈
        detectRenames cfgDefault [w10A1, w10A2, w10D] ∧
     { w10A2 with status := FileStatus.Renamed "old".data } ∈
        detectRenames cfgDefault [w10A1, w10A2, w10D] ∧
     ∀ d ∈ detectRenames cfgDefault [w10A1, w10A2, w10D],
       ¬(d.status = FileStatus.Deleted ∧ d.path = "old".data)) ∧
    w10Empty ∈ detectRenames cfgDefault [w10Empty] :=
  ⟨C10_rename_not_one_to_one.1 cfgDefault [w10A1, w10A2, w10D] 0 1 w10A1 w10A2
      "old".data (by decide) rfl rfl rfl rfl (by decide) (by decide)
      (by decide) (by decide),
   C10_rename_not_one_to_one.2 cfgDefault [w10Empty] w10Empty
     (List.mem_cons_self _ _) rfl rfl⟩

/-- C3 as it actually holds: `detect_renames` applies no size pre-filter
at all — for every pair of sizes, however far apart (in particular
differing by more than 20% of the larger), the similarity-matched
`Added`/`Deleted` pair is still reclassified as a rename.  The sizes `sa`,
`sd` below are arbitrary and never consulted by the computation. -/
theorem C3_no_size_prefilter (sa sd : Nat) :
    detectRenames cfgDefault [c3Added sa, c3Deleted sd] = [c3Renamed sa] := by
  have hsim : (decide (cfgDefault.rename_similarity_threshold ≤
      calculateSimilarity (c3Deleted sd).lines (c3Added sa).lines)) = true := by
    show (decide (cfgDefault.rename_similarity_threshold ≤
      calculateSimilarity [⟨some 1, none, .Delete, "a".data, false⟩]
        [⟨none, some 1, .Insert, "   a   ".data, false⟩])) = true
    decide
  have hfind : List.find? (fun d => decide
      (cfgDefault.rename_similarity_threshold ≤
        calculateSimilarity d.lines (c3Added sa).lines)) [c3Deleted sd] =
      some (c3Deleted sd) := by
    simp only [List.find?, hsim]
  have hfm : firstRenameMatch cfgDefault
      (deletedEntries [c3Added sa, c3Deleted sd]) (c3Added sa) =
      some "old.txt".data := by
    rw [show deletedEntries [c3Added sa, c3Deleted sd] = [c3Deleted sd] from rfl,
      firstRenameMatch, hfind]
    rfl
  have hmapp : renameMappings cfgDefault [c3Added sa, c3Deleted sd] =
      [(0, "old.txt".data)] := by
    rw [renameMappings,
      show addedEntries [c3Added sa, c3Deleted sd] = [(0, c3Added sa)] from rfl,
      List.filterMap_cons]
    simp [hfm]
  simp only [detectRenames]
  rw [hmapp]
  rfl

/-- C3 is false as stated: with sizes 7 and 1 (difference 6, larger than
20% of 7) and trimmed-identical single-line contents, the pair is still
matched as a rename — the code contains no size pre-filter. -/
theorem C3_counterexample : ¬C3Claim := by
  intro h
  have hmem : c3Renamed 7 ∈ detectRenames cfgDefault [c3Added 7, c3Deleted 1] := by
    rw [show detectRenames cfgDefault [c3Added 7, c3Deleted 1] =
      [c3Renamed 7] from rfl]
    exact List.mem_cons_self _ _
  exact h cfgDefault [c3Added 7, c3Deleted 1] (c3Added 7) (c3Deleted 1)
    (List.mem_cons_self _ _)
    (List.mem_cons_of_mem _ (List.mem_cons_self _ _))
    rfl rfl (by decide) _ hmem rfl

end DeepAudit
